import Mathlib

/-!
Verification of the nested indirect-keypad cost engine (day21.rs).

The Rust source is shallowly embedded as follows:

* `Position(isize, isize)` becomes a `Position` structure with two `Int`
  fields; field `.0` of the Rust tuple is `row`, field `.1` is `col`.
* `RobotRemote` is a linked chain of levels.  A value of `ChainState n`
  is a remote with exactly `n` nested controller levels below it
  (`controlling_remote` chains of length `n`); `leaf` is a remote whose
  `controlling_remote` is `None`.  Each level carries its
  `current_position` and its memoization `cache` (the `FnvHashMap` is
  modelled as an association list where an insert prepends, which gives
  the same lookup semantics).
* Mutating methods become state-passing functions returning
  `Nat × ChainState n` (press count paired with the updated chain).
  Press counts are `u64` in Rust; they stay far below `2 ^ 64` for every
  input considered here, so they are modelled as `Nat`.
* Rust panics (`expect`, `panic!` on unknown keys, failed `parse`)
  become `Option` results in the functions where a claim can reach them.
-/

namespace Day21

/-- Model of the Rust `Position(isize, isize)` tuple struct; `row` is
tuple field `.0`, `col` is tuple field `.1`. -/
structure Position where
  row : Int
  col : Int
deriving DecidableEq, Repr

instance : Add Position := ⟨fun a b => ⟨a.row + b.row, a.col + b.col⟩⟩
instance : Sub Position := ⟨fun a b => ⟨a.row - b.row, a.col - b.col⟩⟩

@[simp] theorem Position.add_def (a b : Position) :
    a + b = ⟨a.row + b.row, a.col + b.col⟩ := rfl

@[simp] theorem Position.sub_def (a b : Position) :
    a - b = ⟨a.row - b.row, a.col - b.col⟩ := rfl

theorem Position.sub_eq_zero_iff {a b : Position} :
    a - b = (⟨0, 0⟩ : Position) ↔ a = b := by
  cases a; cases b
  simp only [Position.sub_def, Position.mk.injEq]
  omega

/-- Cache keys of a level: `(delta, controlling position, move order)`,
matching the Rust `(Position, Position, [u8; 4])` key type. -/
abbrev CacheKey := Position × Position × List Char

/-- A level cache, modelling `FnvHashMap<(Position, Position, [u8; 4]), (u64, Position)>`
as an association list. -/
abbrev Cache := List (CacheKey × (Nat × Position))

/-- Lookup in a cache, modelling `FnvHashMap::get`. -/
def cacheGet : Cache → CacheKey → Option (Nat × Position)
  | [], _ => none
  | (k, v) :: rest, key => if k = key then some v else cacheGet rest key

/-- A `RobotRemote` chain with exactly `n` nested controller levels:
`leaf pos cache` is a remote whose `controlling_remote` is `None`,
`node pos cache rest` one whose `controlling_remote` is `Some rest`. -/
inductive ChainState : Nat → Type where
  | leaf : Position → Cache → ChainState 0
  | node : {n : Nat} → Position → Cache → ChainState n → ChainState (n + 1)

/-- The `current_position` of the outermost level of a chain. -/
def topPos : {n : Nat} → ChainState n → Position
  | _, .leaf p _ => p
  | _, .node p _ _ => p

/-- The cache of the outermost level of a chain. -/
def topCache : {n : Nat} → ChainState n → Cache
  | _, .leaf _ c => c
  | _, .node _ c _ => c

/-- Overwrite the `current_position` of the outermost level. -/
def setTopPos : {n : Nat} → ChainState n → Position → ChainState n
  | _, .leaf _ c, p => .leaf p c
  | _, .node _ c r, p => .node p c r

/-- Insert into the cache of the outermost level, modelling
`FnvHashMap::insert` (prepend shadows any earlier binding). -/
def insertTopCache : {n : Nat} → ChainState n → CacheKey → Nat × Position → ChainState n
  | _, .leaf p c, k, v => .leaf p ((k, v) :: c)
  | _, .node p c r, k, v => .node p ((k, v) :: c) r

namespace RobotRemote

/-- `RobotRemote::GAP_POSITION`: the gap of the directional keypad. -/
def GAP_POSITION : Position := ⟨0, 0⟩

/-- `RobotRemote::position_of_key`.  The Rust function panics on any
other key; it is only ever called with the five keys below, so the
catch-all branch returns an arbitrary value that is never reached. -/
def position_of_key (key : Char) : Position :=
  match key with
  | '<' => ⟨1, 0⟩
  | 'v' => ⟨1, 1⟩
  | '>' => ⟨1, 2⟩
  | '^' => ⟨0, 1⟩
  | 'A' => ⟨0, 2⟩
  | _ => ⟨0, 0⟩

end RobotRemote

/-- `order_of_presses`: the static three-way move-order table. -/
def order_of_presses (fromPos toPos gap : Position) : List Char :=
  if fromPos.row = gap.row ∧ toPos.col = gap.col then ['v', '^', '<', '>']
  else if fromPos.col = gap.col ∧ toPos.row = gap.row then ['<', '>', 'v', '^']
  else ['<', 'v', '^', '>']

/-- `presses_in_direction`.  The Rust function is `unreachable!` for any
other byte; callers only pass the four directional keys. -/
def presses_in_direction (delta : Position) (direction : Char) : Nat :=
  match direction with
  | '<' => if delta.col < 0 then delta.col.natAbs else 0
  | '>' => if 0 < delta.col then delta.col.natAbs else 0
  | 'v' => if 0 < delta.row then delta.row.natAbs else 0
  | '^' => if delta.row < 0 then delta.row.natAbs else 0
  | _ => 0

/-- The `for button in order_of_presses` loop body of
`move_to_position`, abstracted over the nested level operations `mv`
(its `move_to_position`) and `pr` (its `press`) so the same loop serves
the cached engine and the cache-free reference engine. -/
def run_buttons {σ : Type} (mv : σ → Position → Position → Nat × σ)
    (pr : σ → Nat → Nat × σ) : List Char → Position → σ → Nat × σ
  | [], _, s => (0, s)
  | b :: bs, delta, s =>
    let k := presses_in_direction delta b
    if 0 < k then
      let m := mv s (RobotRemote.position_of_key b) RobotRemote.GAP_POSITION
      let p := pr m.2 k
      let r := run_buttons mv pr bs delta p.2
      (m.1 + (p.1 + r.1), r.2)
    else
      run_buttons mv pr bs delta s

namespace RobotRemote

/-- The pair of `move_to_position` and `press` for chains with `n`
nested levels, by recursion on `n` (the Rust recursion descends the
`controlling_remote` chain, whose remaining length is `n`). -/
def engine : (n : Nat) →
    ((ChainState n → Position → Position → Nat × ChainState n) ×
      (ChainState n → Nat → Nat × ChainState n))
  | 0 =>
    (fun s target _gap =>
      match s with
      | .leaf pos cache =>
        let delta := target - pos
        if delta = (⟨0, 0⟩ : Position) then (0, .leaf pos cache)
        else (delta.row.natAbs + delta.col.natAbs, .leaf target cache),
      fun s count => (count, s))
  | n + 1 =>
    (fun s target gap =>
      match s with
      | .node pos cache rest =>
        let delta := target - pos
        if delta = (⟨0, 0⟩ : Position) then (0, .node pos cache rest)
        else
          let order := order_of_presses pos target gap
          match cacheGet (topCache rest) (delta, topPos rest, order) with
          | some hit => (hit.1, .node target cache (setTopPos rest hit.2))
          | none =>
            let r := run_buttons (engine n).1 (engine n).2 order delta rest
            (r.1, .node target cache
              (insertTopCache r.2 (delta, topPos rest, order) (r.1, topPos r.2))),
      fun s count =>
      match s with
      | .node pos cache rest =>
        let m := (engine n).1 rest (position_of_key 'A') GAP_POSITION
        let p := (engine n).2 m.2 count
        (m.1 + p.1, .node pos cache p.2))

/-- `RobotRemote::move_to_position` (the `depth` argument of the Rust
method is only used for commented-out debugging output and is dropped). -/
def move_to_position {n : Nat} (s : ChainState n) (target gap : Position) :
    Nat × ChainState n :=
  (engine n).1 s target gap

/-- `RobotRemote::press` (the `depth` and `_key` arguments of the Rust
method are only used for commented-out debugging output and are dropped). -/
def press {n : Nat} (s : ChainState n) (count : Nat) : Nat × ChainState n :=
  (engine n).2 s count

/-- `RobotRemote::reset_positions`. -/
def reset_positions : {n : Nat} → ChainState n → Position → ChainState n
  | _, .leaf _ cache, home => .leaf home cache
  | _, .node _ cache rest, home =>
    .node home cache (reset_positions rest (position_of_key 'A'))

end RobotRemote

/-- `RobotRemote::from_initial_position` followed by
`add_controller_depth n`: a chain whose outermost cursor is `p`, whose
nested cursors sit on the directional `'A'` key, and whose caches are
all empty. -/
def build_chain : (n : Nat) → Position → ChainState n
  | 0, p => .leaf p []
  | n + 1, p => .node p [] (build_chain n (RobotRemote.position_of_key 'A'))

namespace DoorKeypad

/-- `DoorKeypad::GAP_POSITION`: the gap of the numeric keypad. -/
def GAP_POSITION : Position := ⟨3, 0⟩

/-- `DoorKeypad::position_of_key`; the Rust panic on a key that is not
on the numeric keypad becomes `none`. -/
def position_of_key (key : Char) : Option Position :=
  match key with
  | '0' => some ⟨3, 1⟩
  | '1' => some ⟨2, 0⟩
  | '2' => some ⟨2, 1⟩
  | '3' => some ⟨2, 2⟩
  | '4' => some ⟨1, 0⟩
  | '5' => some ⟨1, 1⟩
  | '6' => some ⟨1, 2⟩
  | '7' => some ⟨0, 0⟩
  | '8' => some ⟨0, 1⟩
  | '9' => some ⟨0, 2⟩
  | 'A' => some ⟨3, 2⟩
  | _ => none

/-- The numeric-keypad position of `'A'` (`position_of_key(b'A')` at
call sites where the Rust code cannot panic). -/
def key_a : Position := ⟨3, 2⟩

/-- `DoorKeypad::build_part1`: numeric cursor on `'A'`, two nested
directional levels on their `'A'` keys, empty caches. -/
def build_part1 : ChainState 2 := build_chain 2 key_a

/-- `DoorKeypad::build_part2`: twenty-five nested directional levels. -/
def build_part2 : ChainState 25 := build_chain 25 key_a

/-- The `for &key in sequence` loop of
`count_button_presses_on_top_level`: move to each key, press it once,
sum the costs.  A key that is not on the numeric keypad makes the Rust
code panic inside `position_of_key`, modelled as `none`. -/
def run_sequence : {n : Nat} → ChainState n → List Char → Option (Nat × ChainState n)
  | _, s, [] => some (0, s)
  | _, s, key :: keys =>
    match position_of_key key with
    | none => none
    | some p =>
      let m := RobotRemote.move_to_position s p GAP_POSITION
      let q := RobotRemote.press m.2 1
      match run_sequence q.2 keys with
      | none => none
      | some r => some (m.1 + q.1 + r.1, r.2)

/-- `DoorKeypad::count_button_presses_on_top_level`: run the sequence,
then `reset_positions` (which does not change the press count). -/
def count_button_presses_on_top_level {n : Nat} (s : ChainState n)
    (sequence : List Char) : Option (Nat × ChainState n) :=
  (run_sequence s sequence).map
    (fun r => (r.1, RobotRemote.reset_positions r.2 key_a))

end DoorKeypad

/-- Model of `str::parse::<u64>` for the strings reachable from
`sequence_number` (digits and keypad letters; no sign handling is
needed because the parse is only reached when every character of the
line is on the numeric keypad): the string must be nonempty, all
digits, and its value must fit in a `u64`. -/
def parse_u64 (s : List Char) : Option Nat :=
  if s = [] then none
  else if s.all Char.isDigit then
    let v := s.foldl (fun a ch => a * 10 + (ch.toNat - '0'.toNat)) 0
    if v < 2 ^ 64 then some v else none
  else none

/-- `sequence_number`: strip every trailing `'A'`, then every leading
`'0'`, then parse as `u64`; the `expect` panic becomes `none`. -/
def sequence_number (sequence : List Char) : Option Nat :=
  parse_u64 (((sequence.reverse.dropWhile (· = 'A')).reverse).dropWhile (· = '0'))

/-- Splitting on a newline character, the core of `str::lines`. -/
def split_on_newline : List Char → List (List Char)
  | [] => [[]]
  | c :: rest =>
    match split_on_newline rest with
    | [] => [[c]]
    | l :: ls => if c = '\n' then [] :: l :: ls else (c :: l) :: ls

/-- Strip one trailing `'\r'`, as `str::lines` does for CRLF endings. -/
def strip_cr (l : List Char) : List Char :=
  match l.reverse with
  | '\r' :: rest => rest.reverse
  | _ => l

/-- `input.lines()`.  On input ending in a newline, Rust omits the
final empty line while this model keeps it; the difference disappears
under the `!line.is_empty()` filter applied by every caller. -/
def rust_lines (input : List Char) : List (List Char) :=
  (split_on_newline input).map strip_cr

/-- `str::trim` (ASCII whitespace; the claims never involve the exotic
Unicode whitespace that Rust would additionally trim). -/
def trim_chars (l : List Char) : List Char :=
  ((l.dropWhile Char.isWhitespace).reverse.dropWhile Char.isWhitespace).reverse

/-- The body of the `map` closure of `part1`/`part2` on one line:
`count_button_presses_on_top_level(line) * sequence_number(line)`,
threading the keypad state; any panic becomes `none`. -/
def process_line {n : Nat} (s : ChainState n) (line : List Char) :
    Option (Nat × ChainState n) :=
  match DoorKeypad.count_button_presses_on_top_level s line with
  | none => none
  | some c =>
    match sequence_number line with
    | none => none
    | some v => some (c.1 * v, c.2)

/-- The `.map(...).sum()` of `part1`/`part2` over the prepared lines. -/
def process_lines : {n : Nat} → ChainState n → List (List Char) → Option Nat
  | _, _, [] => some 0
  | _, s, l :: ls =>
    match process_line s l with
    | none => none
    | some r =>
      match process_lines r.2 ls with
      | none => none
      | some v => some (r.1 + v)

/-- `part1`: build the depth-2 keypad, split the input into nonempty
trimmed lines, score each line, and sum. -/
def part1 (input : String) : Option Nat :=
  process_lines DoorKeypad.build_part1
    (((rust_lines input.toList).filter (· ≠ [])).map trim_chars)

/-- `part2`: the same with the depth-25 keypad. -/
def part2 (input : String) : Option Nat :=
  process_lines DoorKeypad.build_part2
    (((rust_lines input.toList).filter (· ≠ [])).map trim_chars)

/-! ### Cache-free reference engine

`PChain n` is a chain of cursor positions only.  The reference engine
recomputes every move with no memoization; the simulation theorems
below show the cached engine computes the same costs and positions. -/

/-- The cursor positions of a chain, with the caches erased. -/
inductive PChain : Nat → Type where
  | leaf : Position → PChain 0
  | node : {n : Nat} → Position → PChain n → PChain (n + 1)
deriving DecidableEq

/-- The outermost cursor of a position chain. -/
def topP : {n : Nat} → PChain n → Position
  | _, .leaf p => p
  | _, .node p _ => p

/-- Overwrite the outermost cursor of a position chain. -/
def setTopP : {n : Nat} → PChain n → Position → PChain n
  | _, .leaf _, p => .leaf p
  | _, .node _ r, p => .node p r

/-- Erase the caches of a chain, keeping the cursor positions. -/
def proj : {n : Nat} → ChainState n → PChain n
  | _, .leaf p _ => .leaf p
  | _, .node p _ r => .node p (proj r)

/-- The position chain whose outermost cursor is `p` and whose strictly
lower cursors all rest on the directional `'A'` key. -/
def canonicalP : (n : Nat) → Position → PChain n
  | 0, p => .leaf p
  | n + 1, p => .node p (canonicalP n (RobotRemote.position_of_key 'A'))

/-- The cache-free reference versions of `move_to_position` and
`press`, mirroring `RobotRemote.engine` without the cache branch. -/
def engineNC : (n : Nat) →
    ((PChain n → Position → Position → Nat × PChain n) ×
      (PChain n → Nat → Nat × PChain n))
  | 0 =>
    (fun s target _gap =>
      match s with
      | .leaf pos =>
        let delta := target - pos
        if delta = (⟨0, 0⟩ : Position) then (0, .leaf pos)
        else (delta.row.natAbs + delta.col.natAbs, .leaf target),
      fun s count => (count, s))
  | n + 1 =>
    (fun s target gap =>
      match s with
      | .node pos rest =>
        let delta := target - pos
        if delta = (⟨0, 0⟩ : Position) then (0, .node pos rest)
        else
          let r := run_buttons (engineNC n).1 (engineNC n).2
            (order_of_presses pos target gap) delta rest
          (r.1, .node target r.2),
      fun s count =>
      match s with
      | .node pos rest =>
        let m := (engineNC n).1 rest (RobotRemote.position_of_key 'A')
          RobotRemote.GAP_POSITION
        let p := (engineNC n).2 m.2 count
        (m.1 + p.1, .node pos p.2))

/-- Reference `move_to_position` on position chains. -/
def moveNC {n : Nat} (s : PChain n) (target gap : Position) : Nat × PChain n :=
  (engineNC n).1 s target gap

/-- Reference `press` on position chains. -/
def pressNC {n : Nat} (s : PChain n) (count : Nat) : Nat × PChain n :=
  (engineNC n).2 s count

/-- The button loop of the cached engine at a fixed depth. -/
def run_buttonsC {n : Nat} (order : List Char) (delta : Position)
    (s : ChainState n) : Nat × ChainState n :=
  run_buttons (RobotRemote.engine n).1 (RobotRemote.engine n).2 order delta s

/-- The button loop of the reference engine at a fixed depth. -/
def run_buttonsNC {n : Nat} (order : List Char) (delta : Position)
    (s : PChain n) : Nat × PChain n :=
  run_buttons (engineNC n).1 (engineNC n).2 order delta s

/-! ### State invariants -/

/-- Every cursor strictly below the outermost one rests on the
directional `'A'` key; equivalently the position chain is canonical. -/
def belowTopP {n : Nat} (s : PChain n) : Prop := s = canonicalP n (topP s)

/-- Every cursor strictly below the first nested level rests on the
directional `'A'` key (the entry invariant of `move_to_position`). -/
def below2P : {n : Nat} → PChain n → Prop
  | _, .leaf _ => True
  | _, .node _ r => belowTopP r

/-- `belowTopP` of the cursor positions of a cached chain. -/
def belowTop {n : Nat} (s : ChainState n) : Prop := belowTopP (proj s)

/-- `below2P` of the cursor positions of a cached chain. -/
def below2 {n : Nat} (s : ChainState n) : Prop := below2P (proj s)

/-- A cache entry of a level whose own chain has `n` nested levels is
coherent when replaying its move order on the canonical chain with the
recorded starting cursor yields the recorded cost and leaves the
canonical chain with the recorded resulting cursor. -/
def entry_coherent (n : Nat) (e : CacheKey × (Nat × Position)) : Prop :=
  run_buttonsNC e.1.2.2 e.1.1 (canonicalP n e.1.2.1) = (e.2.1, canonicalP n e.2.2)

/-- Every cache entry at every level of the chain is coherent. -/
def cachesOK : {n : Nat} → ChainState n → Prop
  | 0, .leaf _ cache => ∀ e ∈ cache, entry_coherent 0 e
  | n + 1, .node _ cache rest =>
    (∀ e ∈ cache, entry_coherent (n + 1) e) ∧ cachesOK rest

/-! ### Move-order paths (for the no-gap invariant) -/

/-- The unit displacement of one press of a directional key. -/
def dir_vec (b : Char) : Position :=
  match b with
  | '<' => ⟨0, -1⟩
  | '>' => ⟨0, 1⟩
  | 'v' => ⟨1, 0⟩
  | '^' => ⟨-1, 0⟩
  | _ => ⟨0, 0⟩

/-- The cells entered by `k` unit steps of `v` starting from `p`. -/
def walk (p v : Position) : Nat → List Position
  | 0 => []
  | k + 1 => (p + v) :: walk (p + v) v k

/-- The cell reached after `k` unit steps of `v` starting from `p`. -/
def move_n (p v : Position) (k : Nat) : Position :=
  ⟨p.row + v.row * k, p.col + v.col * k⟩

/-- The cells entered while executing a move order: for each key in the
order, all its presses are emitted before moving on to the next key. -/
def path_from (delta : Position) : List Char → Position → List Position
  | [], _ => []
  | b :: bs, p =>
    let k := presses_in_direction delta b
    walk p (dir_vec b) k ++ path_from delta bs (move_n p (dir_vec b) k)

/-- Every cell the cursor occupies (start included) while executing the
move order chosen by `order_of_presses current target gap`. -/
def path_positions (current target gap : Position) : List Position :=
  current :: path_from (target - current) (order_of_presses current target gap) current

/-- The positions of the eleven numeric-keypad keys. -/
def numeric_key_positions : List Position :=
  [⟨3, 1⟩, ⟨2, 0⟩, ⟨2, 1⟩, ⟨2, 2⟩, ⟨1, 0⟩, ⟨1, 1⟩, ⟨1, 2⟩, ⟨0, 0⟩, ⟨0, 1⟩, ⟨0, 2⟩, ⟨3, 2⟩]

/-- The positions of the five directional-keypad keys. -/
def directional_key_positions : List Position :=
  [⟨1, 0⟩, ⟨1, 1⟩, ⟨1, 2⟩, ⟨0, 1⟩, ⟨0, 2⟩]

/-- The sequence of single key presses a move order emits: each
directional key of the order repeated its required number of times. -/
def emitted_moves (current target gap : Position) : List Char :=
  ((order_of_presses current target gap).map
    (fun b => List.replicate (presses_in_direction (target - current) b) b)).flatten

/-- Whether a directional key moves horizontally. -/
def is_horizontal (b : Char) : Bool := b = '<' || b = '>'

/-- Whether a move list consists of all its horizontal moves followed
by all its vertical moves. -/
def horizontal_first (l : List Char) : Bool :=
  l == l.filter is_horizontal ++ l.filter (fun b => !is_horizontal b)

/-- The list of caches of a chain, outermost level first. -/
def cacheList : {n : Nat} → ChainState n → List Cache
  | _, .leaf _ c => [c]
  | _, .node _ c r => c :: cacheList r

/-! ### Basic accessor lemmas -/

@[simp] theorem topPos_leaf (p : Position) (c : Cache) : topPos (.leaf p c) = p := rfl

@[simp] theorem topPos_node {n : Nat} (p : Position) (c : Cache) (r : ChainState n) :
    topPos (.node p c r) = p := rfl

@[simp] theorem topCache_leaf (p : Position) (c : Cache) : topCache (.leaf p c) = c := rfl

@[simp] theorem topCache_node {n : Nat} (p : Position) (c : Cache) (r : ChainState n) :
    topCache (.node p c r) = c := rfl

@[simp] theorem setTopPos_leaf (p : Position) (c : Cache) (q : Position) :
    setTopPos (.leaf p c) q = .leaf q c := rfl

@[simp] theorem setTopPos_node {n : Nat} (p : Position) (c : Cache) (r : ChainState n)
    (q : Position) : setTopPos (.node p c r) q = .node q c r := rfl

@[simp] theorem proj_leaf (p : Position) (c : Cache) : proj (.leaf p c) = .leaf p := rfl

@[simp] theorem proj_node {n : Nat} (p : Position) (c : Cache) (r : ChainState n) :
    proj (.node p c r) = .node p (proj r) := rfl

@[simp] theorem topP_leaf (p : Position) : topP (.leaf p) = p := rfl

@[simp] theorem topP_node {n : Nat} (p : Position) (r : PChain n) :
    topP (.node p r) = p := rfl

@[simp] theorem setTopP_leaf (p q : Position) : setTopP (.leaf p) q = .leaf q := rfl

@[simp] theorem setTopP_node {n : Nat} (p : Position) (r : PChain n) (q : Position) :
    setTopP (.node p r) q = .node q r := rfl

@[simp] theorem topP_proj {n : Nat} (s : ChainState n) : topP (proj s) = topPos s := by
  cases s <;> rfl

@[simp] theorem proj_setTopPos {n : Nat} (s : ChainState n) (p : Position) :
    proj (setTopPos s p) = setTopP (proj s) p := by
  cases s <;> rfl

@[simp] theorem proj_insertTopCache {n : Nat} (s : ChainState n) (k : CacheKey)
    (v : Nat × Position) : proj (insertTopCache s k v) = proj s := by
  cases s <;> rfl

@[simp] theorem topPos_setTopPos {n : Nat} (s : ChainState n) (p : Position) :
    topPos (setTopPos s p) = p := by
  cases s <;> rfl

@[simp] theorem topPos_insertTopCache {n : Nat} (s : ChainState n) (k : CacheKey)
    (v : Nat × Position) : topPos (insertTopCache s k v) = topPos s := by
  cases s <;> rfl

@[simp] theorem topP_canonicalP (n : Nat) (p : Position) : topP (canonicalP n p) = p := by
  cases n <;> rfl

/-! ### Definitional unfolding of the engines -/

theorem move_to_leaf_def (pos : Position) (cache : Cache) (t g : Position) :
    RobotRemote.move_to_position (.leaf pos cache) t g =
      if t - pos = (⟨0, 0⟩ : Position) then (0, ChainState.leaf pos cache)
      else ((t - pos).row.natAbs + (t - pos).col.natAbs, .leaf t cache) := rfl

theorem move_to_node_def {n : Nat} (pos : Position) (cache : Cache) (rest : ChainState n)
    (t g : Position) :
    RobotRemote.move_to_position (.node pos cache rest) t g =
      if t - pos = (⟨0, 0⟩ : Position) then (0, ChainState.node pos cache rest)
      else
        match cacheGet (topCache rest) (t - pos, topPos rest, order_of_presses pos t g) with
        | some hit => (hit.1, .node t cache (setTopPos rest hit.2))
        | none =>
          ((run_buttonsC (order_of_presses pos t g) (t - pos) rest).1,
            .node t cache
              (insertTopCache (run_buttonsC (order_of_presses pos t g) (t - pos) rest).2
                (t - pos, topPos rest, order_of_presses pos t g)
                ((run_buttonsC (order_of_presses pos t g) (t - pos) rest).1,
                  topPos (run_buttonsC (order_of_presses pos t g) (t - pos) rest).2))) := rfl

theorem press_leaf_def (pos : Position) (cache : Cache) (k : Nat) :
    RobotRemote.press (.leaf pos cache) k = (k, .leaf pos cache) := rfl

theorem press_node_def {n : Nat} (pos : Position) (cache : Cache) (rest : ChainState n)
    (k : Nat) :
    RobotRemote.press (.node pos cache rest) k =
      ((RobotRemote.move_to_position rest (RobotRemote.position_of_key 'A')
          RobotRemote.GAP_POSITION).1 +
        (RobotRemote.press (RobotRemote.move_to_position rest
          (RobotRemote.position_of_key 'A') RobotRemote.GAP_POSITION).2 k).1,
       ChainState.node pos cache
         (RobotRemote.press (RobotRemote.move_to_position rest
           (RobotRemote.position_of_key 'A') RobotRemote.GAP_POSITION).2 k).2) := rfl

theorem moveNC_leaf_def (pos : Position) (t g : Position) :
    moveNC (.leaf pos) t g =
      if t - pos = (⟨0, 0⟩ : Position) then (0, PChain.leaf pos)
      else ((t - pos).row.natAbs + (t - pos).col.natAbs, .leaf t) := rfl

theorem moveNC_node_def {n : Nat} (pos : Position) (rest : PChain n) (t g : Position) :
    moveNC (.node pos rest) t g =
      if t - pos = (⟨0, 0⟩ : Position) then (0, PChain.node pos rest)
      else
        ((run_buttonsNC (order_of_presses pos t g) (t - pos) rest).1,
          .node t (run_buttonsNC (order_of_presses pos t g) (t - pos) rest).2) := rfl

theorem pressNC_leaf_def (pos : Position) (k : Nat) :
    pressNC (.leaf pos) k = (k, .leaf pos) := rfl

theorem pressNC_node_def {n : Nat} (pos : Position) (rest : PChain n) (k : Nat) :
    pressNC (.node pos rest) k =
      ((moveNC rest (RobotRemote.position_of_key 'A') RobotRemote.GAP_POSITION).1 +
        (pressNC (moveNC rest (RobotRemote.position_of_key 'A')
          RobotRemote.GAP_POSITION).2 k).1,
       PChain.node pos
         (pressNC (moveNC rest (RobotRemote.position_of_key 'A')
           RobotRemote.GAP_POSITION).2 k).2) := rfl

theorem run_buttonsC_nil {n : Nat} (delta : Position) (s : ChainState n) :
    run_buttonsC [] delta s = (0, s) := rfl

theorem run_buttonsC_cons {n : Nat} (b : Char) (bs : List Char) (delta : Position)
    (s : ChainState n) :
    run_buttonsC (b :: bs) delta s =
      if 0 < presses_in_direction delta b then
        ((RobotRemote.move_to_position s (RobotRemote.position_of_key b)
            RobotRemote.GAP_POSITION).1 +
          ((RobotRemote.press (RobotRemote.move_to_position s
              (RobotRemote.position_of_key b) RobotRemote.GAP_POSITION).2
              (presses_in_direction delta b)).1 +
            (run_buttonsC bs delta (RobotRemote.press (RobotRemote.move_to_position s
              (RobotRemote.position_of_key b) RobotRemote.GAP_POSITION).2
              (presses_in_direction delta b)).2).1),
         (run_buttonsC bs delta (RobotRemote.press (RobotRemote.move_to_position s
           (RobotRemote.position_of_key b) RobotRemote.GAP_POSITION).2
           (presses_in_direction delta b)).2).2)
      else run_buttonsC bs delta s := rfl

theorem run_buttonsNC_nil {n : Nat} (delta : Position) (s : PChain n) :
    run_buttonsNC [] delta s = (0, s) := rfl

theorem run_buttonsNC_cons {n : Nat} (b : Char) (bs : List Char) (delta : Position)
    (s : PChain n) :
    run_buttonsNC (b :: bs) delta s =
      if 0 < presses_in_direction delta b then
        ((moveNC s (RobotRemote.position_of_key b) RobotRemote.GAP_POSITION).1 +
          ((pressNC (moveNC s (RobotRemote.position_of_key b)
              RobotRemote.GAP_POSITION).2 (presses_in_direction delta b)).1 +
            (run_buttonsNC bs delta (pressNC (moveNC s (RobotRemote.position_of_key b)
              RobotRemote.GAP_POSITION).2 (presses_in_direction delta b)).2).1),
         (run_buttonsNC bs delta (pressNC (moveNC s (RobotRemote.position_of_key b)
           RobotRemote.GAP_POSITION).2 (presses_in_direction delta b)).2).2)
      else run_buttonsNC bs delta s := rfl

/-! ### Invariant basics -/

theorem belowTopP_canonicalP (n : Nat) (p : Position) : belowTopP (canonicalP n p) := by
  unfold belowTopP
  rw [topP_canonicalP]

theorem setTopP_of_belowTopP {n : Nat} {s : PChain n} (h : belowTopP s) (p : Position) :
    setTopP s p = canonicalP n p := by
  cases s with
  | leaf q => rfl
  | node q r =>
    have hr : r = canonicalP _ (RobotRemote.position_of_key 'A') := by
      have h' := h
      unfold belowTopP at h'
      simp only [topP_node, canonicalP] at h'
      exact (PChain.node.injEq _ _ _ _).mp h' |>.2
    simp [canonicalP, hr]

theorem belowTopP_setTopP {n : Nat} {s : PChain n} (h : belowTopP s) (p : Position) :
    belowTopP (setTopP s p) := by
  rw [setTopP_of_belowTopP h]
  exact belowTopP_canonicalP n p

theorem below2P_of_belowTopP {n : Nat} {s : PChain n} (h : belowTopP s) : below2P s := by
  cases s with
  | leaf q => trivial
  | node q r =>
    have h' := h
    unfold belowTopP at h'
    simp only [topP_node, canonicalP] at h'
    have hr := (PChain.node.injEq _ _ _ _).mp h' |>.2
    show belowTopP r
    rw [hr]
    exact belowTopP_canonicalP _ _

theorem below2_of_belowTop {n : Nat} {s : ChainState n} (h : belowTop s) : below2 s :=
  below2P_of_belowTopP h

theorem below2_node {n : Nat} {pos : Position} {cache : Cache} {rest : ChainState n} :
    below2 (.node pos cache rest) ↔ belowTop rest := Iff.rfl

theorem belowTop_node {n : Nat} {pos : Position} {cache : Cache} {rest : ChainState n} :
    belowTop (.node pos cache rest) ↔
      proj rest = canonicalP n (RobotRemote.position_of_key 'A') := by
  unfold belowTop belowTopP
  simp [canonicalP]

theorem belowTop_leaf (p : Position) (c : Cache) : belowTop (.leaf p c) := rfl

theorem proj_eq_canonical {n : Nat} {s : ChainState n} (h : belowTop s) :
    proj s = canonicalP n (topPos s) := by
  have h' : proj s = canonicalP n (topP (proj s)) := h
  rwa [topP_proj] at h'

theorem cacheGet_mem : ∀ {c : Cache} {k : CacheKey} {v : Nat × Position},
    cacheGet c k = some v → (k, v) ∈ c := by
  intro c
  induction c with
  | nil => intro k v h; simp [cacheGet] at h
  | cons e rest ih =>
    intro k v h
    obtain ⟨ek, ev⟩ := e
    unfold cacheGet at h
    by_cases he : ek = k
    · rw [if_pos he] at h
      refine List.mem_cons.mpr (Or.inl ?_)
      injection h with hv
      rw [he, hv]
    · rw [if_neg he] at h
      exact List.mem_cons_of_mem _ (ih h)

theorem cachesOK_leaf {p : Position} {c : Cache} :
    cachesOK (.leaf p c) ↔ ∀ e ∈ c, entry_coherent 0 e := Iff.rfl

theorem cachesOK_node {n : Nat} {p : Position} {c : Cache} {r : ChainState n} :
    cachesOK (.node p c r) ↔ (∀ e ∈ c, entry_coherent (n + 1) e) ∧ cachesOK r := Iff.rfl

theorem cachesOK_topCache {n : Nat} {s : ChainState n} (h : cachesOK s) :
    ∀ e ∈ topCache s, entry_coherent n e := by
  cases s with
  | leaf p c => exact h
  | node p c r => exact h.1

theorem cachesOK_setTopPos {n : Nat} {s : ChainState n} (h : cachesOK s) (p : Position) :
    cachesOK (setTopPos s p) := by
  cases s with
  | leaf q c => exact h
  | node q c r => exact h

theorem cachesOK_insertTopCache {n : Nat} {s : ChainState n} (h : cachesOK s)
    {k : CacheKey} {v : Nat × Position} (he : entry_coherent n (k, v)) :
    cachesOK (insertTopCache s k v) := by
  cases s with
  | leaf q c =>
    intro e hmem
    rcases List.mem_cons.mp hmem with h1 | h2
    · rw [h1]; exact he
    · exact h _ h2
  | node q c r =>
    refine ⟨?_, h.2⟩
    intro e hmem
    rcases List.mem_cons.mp hmem with h1 | h2
    · rw [h1]; exact he
    · exact h.1 _ h2

theorem cachesOK_build_chain : ∀ (n : Nat) (p : Position), cachesOK (build_chain n p) := by
  intro n
  induction n with
  | zero => intro p e h; simp [build_chain] at h
  | succ n ih =>
    intro p
    exact ⟨fun e h => by simp [build_chain] at h, ih _⟩

theorem topPos_build_chain (n : Nat) (p : Position) : topPos (build_chain n p) = p := by
  cases n <;> rfl

theorem belowTop_build_chain : ∀ (n : Nat) (p : Position), belowTop (build_chain n p) := by
  intro n
  induction n with
  | zero => intro p; rfl
  | succ n ih =>
    intro p
    show belowTop (.node p [] (build_chain n (RobotRemote.position_of_key 'A')))
    rw [belowTop_node, proj_eq_canonical (ih _), topPos_build_chain]

theorem belowTop_setTopPos {n : Nat} {s : ChainState n} (h : belowTop s) (p : Position) :
    belowTop (setTopPos s p) := by
  unfold belowTop
  rw [proj_setTopPos]
  exact belowTopP_setTopP h _

theorem belowTop_insertTopCache {n : Nat} {s : ChainState n} (k : CacheKey)
    (v : Nat × Position) : belowTop (insertTopCache s k v) ↔ belowTop s := by
  unfold belowTop
  rw [proj_insertTopCache]

/-! ### Cursor-position facts of the cached engine

These hold for arbitrary cache contents: `move_to_position` always
leaves its own cursor on the target, `press` never moves its own
cursor, and both restore the cursors strictly below their first nested
level to the directional home key. -/

theorem move_top {n : Nat} (s : ChainState n) (t g : Position) :
    topPos (RobotRemote.move_to_position s t g).2 = t := by
  cases s with
  | leaf pos cache =>
    rw [move_to_leaf_def]
    by_cases h : t - pos = (⟨0, 0⟩ : Position)
    · rw [if_pos h]
      simp [Position.sub_eq_zero_iff.mp h]
    · rw [if_neg h]
      rfl
  | node pos cache rest =>
    rw [move_to_node_def]
    by_cases h : t - pos = (⟨0, 0⟩ : Position)
    · rw [if_pos h]
      simp [Position.sub_eq_zero_iff.mp h]
    · rw [if_neg h]
      cases hc : cacheGet (topCache rest) (t - pos, topPos rest, order_of_presses pos t g) with
      | some hit => rfl
      | none => rfl

theorem press_top {n : Nat} (s : ChainState n) (k : Nat) :
    topPos (RobotRemote.press s k).2 = topPos s := by
  cases s <;> rfl

theorem below_inv : ∀ n : Nat,
    (∀ (s : ChainState n) (t g : Position), below2 s →
      below2 (RobotRemote.move_to_position s t g).2) ∧
    (∀ (s : ChainState n) (k : Nat), below2 s →
      belowTop (RobotRemote.press s k).2) := by
  intro n
  induction n with
  | zero =>
    refine ⟨?_, ?_⟩
    · intro s t g h
      cases s with
      | leaf pos cache =>
        rw [move_to_leaf_def]
        by_cases h0 : t - pos = (⟨0, 0⟩ : Position)
        · rw [if_pos h0]; exact h
        · rw [if_neg h0]; trivial
    · intro s k h
      cases s with
      | leaf pos cache => exact belowTop_leaf pos cache
  | succ n ih =>
    have run_inv : ∀ (bs : List Char) (delta : Position) (s : ChainState n),
        belowTop s → belowTop (run_buttonsC bs delta s).2 := by
      intro bs
      induction bs with
      | nil => intro delta s h; exact h
      | cons b bs ihb =>
        intro delta s h
        rw [run_buttonsC_cons]
        by_cases hk : 0 < presses_in_direction delta b
        · rw [if_pos hk]
          exact ihb delta _ (ih.2 _ _ (ih.1 _ _ _ (below2_of_belowTop h)))
        · rw [if_neg hk]
          exact ihb delta s h
    refine ⟨?_, ?_⟩
    · intro s t g h
      cases s with
      | node pos cache rest =>
        rw [move_to_node_def]
        by_cases h0 : t - pos = (⟨0, 0⟩ : Position)
        · rw [if_pos h0]; exact h
        · rw [if_neg h0]
          cases hc : cacheGet (topCache rest)
              (t - pos, topPos rest, order_of_presses pos t g) with
          | some hit =>
            show below2 (ChainState.node t cache (setTopPos rest hit.2))
            rw [below2_node]
            exact belowTop_setTopPos (h : belowTop rest) _
          | none =>
            show below2 (ChainState.node t cache
              (insertTopCache (run_buttonsC (order_of_presses pos t g) (t - pos) rest).2
                (t - pos, topPos rest, order_of_presses pos t g)
                ((run_buttonsC (order_of_presses pos t g) (t - pos) rest).1,
                  topPos (run_buttonsC (order_of_presses pos t g) (t - pos) rest).2)))
            rw [below2_node, belowTop_insertTopCache]
            exact run_inv _ _ rest h
    · intro s k h
      cases s with
      | node pos cache rest =>
        rw [press_node_def]
        show belowTop (ChainState.node pos cache
          (RobotRemote.press (RobotRemote.move_to_position rest
            (RobotRemote.position_of_key 'A') RobotRemote.GAP_POSITION).2 k).2)
        rw [belowTop_node]
        have h1 : below2 (RobotRemote.move_to_position rest
            (RobotRemote.position_of_key 'A') RobotRemote.GAP_POSITION).2 :=
          ih.1 _ _ _ (below2_of_belowTop h)
        have h2 := ih.2 _ k h1
        rw [proj_eq_canonical h2, press_top, move_top]

theorem move_below2 {n : Nat} (s : ChainState n) (t g : Position) (h : below2 s) :
    below2 (RobotRemote.move_to_position s t g).2 :=
  (below_inv n).1 s t g h

theorem press_belowTop {n : Nat} (s : ChainState n) (k : Nat) (h : below2 s) :
    belowTop (RobotRemote.press s k).2 :=
  (below_inv n).2 s k h

theorem run_belowTop {n : Nat} (bs : List Char) (delta : Position) (s : ChainState n)
    (h : belowTop s) : belowTop (run_buttonsC bs delta s).2 := by
  induction bs generalizing s with
  | nil => exact h
  | cons b bs ihb =>
    rw [run_buttonsC_cons]
    by_cases hk : 0 < presses_in_direction delta b
    · rw [if_pos hk]
      exact ihb _ (press_belowTop _ _ (move_below2 _ _ _ (below2_of_belowTop h)))
    · rw [if_neg hk]
      exact ihb s h

/-! ### Simulation of the cached engine by the cache-free engine

Under the two invariants established above — every cursor strictly
below the consulted level rests on the home key, and every cache entry
is coherent — the cached engine returns the same cost and the same
cursor positions as recomputing from scratch, and preserves both
invariants. -/

theorem sim : ∀ n : Nat,
    (∀ (s : ChainState n) (t g : Position), below2 s → cachesOK s →
      (RobotRemote.move_to_position s t g).1 = (moveNC (proj s) t g).1 ∧
      proj (RobotRemote.move_to_position s t g).2 = (moveNC (proj s) t g).2 ∧
      cachesOK (RobotRemote.move_to_position s t g).2) ∧
    (∀ (s : ChainState n) (k : Nat), below2 s → cachesOK s →
      (RobotRemote.press s k).1 = (pressNC (proj s) k).1 ∧
      proj (RobotRemote.press s k).2 = (pressNC (proj s) k).2 ∧
      cachesOK (RobotRemote.press s k).2) := by
  intro n
  induction n with
  | zero =>
    refine ⟨?_, ?_⟩
    · intro s t g _ hc
      cases s with
      | leaf pos cache =>
        rw [move_to_leaf_def, proj_leaf, moveNC_leaf_def]
        by_cases h0 : t - pos = (⟨0, 0⟩ : Position)
        · rw [if_pos h0, if_pos h0]
          exact ⟨rfl, rfl, hc⟩
        · rw [if_neg h0, if_neg h0]
          exact ⟨rfl, rfl, hc⟩
    · intro s k _ hc
      cases s with
      | leaf pos cache => exact ⟨rfl, rfl, hc⟩
  | succ n ih =>
    have run_sim : ∀ (bs : List Char) (delta : Position) (s : ChainState n),
        belowTop s → cachesOK s →
        (run_buttonsC bs delta s).1 = (run_buttonsNC bs delta (proj s)).1 ∧
        proj (run_buttonsC bs delta s).2 = (run_buttonsNC bs delta (proj s)).2 ∧
        cachesOK (run_buttonsC bs delta s).2 := by
      intro bs
      induction bs with
      | nil => intro delta s _ hc; exact ⟨rfl, rfl, hc⟩
      | cons b bs ihb =>
        intro delta s hb hc
        rw [run_buttonsC_cons, run_buttonsNC_cons]
        by_cases hk : 0 < presses_in_direction delta b
        · rw [if_pos hk, if_pos hk]
          obtain ⟨m1, m2, m3⟩ := ih.1 s (RobotRemote.position_of_key b)
            RobotRemote.GAP_POSITION (below2_of_belowTop hb) hc
          obtain ⟨p1, p2, p3⟩ := ih.2 _ (presses_in_direction delta b)
            (move_below2 _ _ _ (below2_of_belowTop hb)) m3
          obtain ⟨r1, r2, r3⟩ := ihb delta _
            (press_belowTop _ _ (move_below2 _ _ _ (below2_of_belowTop hb))) p3
          rw [m2] at p1 p2
          rw [p2] at r1 r2
          exact ⟨by rw [m1, p1, r1], by rw [r2], r3⟩
        · rw [if_neg hk, if_neg hk]
          exact ihb delta s hb hc
    refine ⟨?_, ?_⟩
    · intro s t g hb hc
      cases s with
      | node pos cache rest =>
        rw [move_to_node_def]
        simp only [proj_node]
        rw [moveNC_node_def]
        by_cases h0 : t - pos = (⟨0, 0⟩ : Position)
        · rw [if_pos h0, if_pos h0]
          exact ⟨rfl, by rw [proj_node], hc⟩
        · rw [if_neg h0, if_neg h0]
          have hbrest : belowTop rest := hb
          have hpc : proj rest = canonicalP n (topPos rest) := proj_eq_canonical hbrest
          cases hcget : cacheGet (topCache rest)
              (t - pos, topPos rest, order_of_presses pos t g) with
          | some hit =>
            have hco := cachesOK_topCache hc.2 _ (cacheGet_mem hcget)
            simp only [entry_coherent] at hco
            refine ⟨?_, ?_, ⟨hc.1, cachesOK_setTopPos hc.2 _⟩⟩
            · rw [hpc, hco]
            · rw [hpc, hco]
              simp only [proj_node, proj_setTopPos]
              rw [setTopP_of_belowTopP hbrest]
          | none =>
            obtain ⟨r1, r2, r3⟩ := run_sim (order_of_presses pos t g) (t - pos) rest
              hbrest hc.2
            have hbr : belowTop (run_buttonsC (order_of_presses pos t g)
                (t - pos) rest).2 := run_belowTop _ _ _ hbrest
            have hent : entry_coherent n ((t - pos, topPos rest, order_of_presses pos t g),
                ((run_buttonsC (order_of_presses pos t g) (t - pos) rest).1,
                  topPos (run_buttonsC (order_of_presses pos t g) (t - pos) rest).2)) := by
              simp only [entry_coherent]
              rw [← hpc, ← proj_eq_canonical hbr, r1, r2]
            refine ⟨r1, ?_, ⟨hc.1, cachesOK_insertTopCache r3 hent⟩⟩
            simp only [proj_node, proj_insertTopCache]
            rw [r2]
    · intro s k hb hc
      cases s with
      | node pos cache rest =>
        rw [press_node_def]
        simp only [proj_node]
        rw [pressNC_node_def]
        obtain ⟨m1, m2, m3⟩ := ih.1 rest (RobotRemote.position_of_key 'A')
          RobotRemote.GAP_POSITION (below2_of_belowTop hb) hc.2
        obtain ⟨p1, p2, p3⟩ := ih.2 _ k (move_below2 _ _ _ (below2_of_belowTop hb)) m3
        rw [m2] at p1 p2
        refine ⟨by rw [m1, p1], ?_, ?_⟩
        · simp only [proj_node]
          rw [p2]
        · exact ⟨hc.1, p3⟩

theorem move_sim {n : Nat} (s : ChainState n) (t g : Position) (hb : below2 s)
    (hc : cachesOK s) :
    (RobotRemote.move_to_position s t g).1 = (moveNC (proj s) t g).1 ∧
    proj (RobotRemote.move_to_position s t g).2 = (moveNC (proj s) t g).2 ∧
    cachesOK (RobotRemote.move_to_position s t g).2 :=
  (sim n).1 s t g hb hc

theorem press_sim {n : Nat} (s : ChainState n) (k : Nat) (hb : below2 s)
    (hc : cachesOK s) :
    (RobotRemote.press s k).1 = (pressNC (proj s) k).1 ∧
    proj (RobotRemote.press s k).2 = (pressNC (proj s) k).2 ∧
    cachesOK (RobotRemote.press s k).2 :=
  (sim n).2 s k hb hc

theorem run_sim_all {n : Nat} (bs : List Char) (delta : Position) (s : ChainState n)
    (hb : belowTop s) (hc : cachesOK s) :
    (run_buttonsC bs delta s).1 = (run_buttonsNC bs delta (proj s)).1 ∧
    proj (run_buttonsC bs delta s).2 = (run_buttonsNC bs delta (proj s)).2 ∧
    cachesOK (run_buttonsC bs delta s).2 := by
  induction bs generalizing s with
  | nil => exact ⟨rfl, rfl, hc⟩
  | cons b bs ihb =>
    rw [run_buttonsC_cons, run_buttonsNC_cons]
    by_cases hk : 0 < presses_in_direction delta b
    · rw [if_pos hk, if_pos hk]
      obtain ⟨m1, m2, m3⟩ := move_sim s (RobotRemote.position_of_key b)
        RobotRemote.GAP_POSITION (below2_of_belowTop hb) hc
      obtain ⟨p1, p2, p3⟩ := press_sim _ (presses_in_direction delta b)
        (move_below2 _ _ _ (below2_of_belowTop hb)) m3
      obtain ⟨r1, r2, r3⟩ := ihb _
        (press_belowTop _ _ (move_below2 _ _ _ (below2_of_belowTop hb))) p3
      rw [m2] at p1 p2
      rw [p2] at r1 r2
      exact ⟨by rw [m1, p1, r1], by rw [r2], r3⟩
    · rw [if_neg hk, if_neg hk]
      exact ihb s hb hc

/-! ### Sequence-level simulation and reset lemmas -/

/-- Reference version of the per-sequence loop on position chains. -/
def run_sequenceNC : {n : Nat} → PChain n → List Char → Option (Nat × PChain n)
  | _, s, [] => some (0, s)
  | _, s, key :: keys =>
    match DoorKeypad.position_of_key key with
    | none => none
    | some p =>
      let m := moveNC s p DoorKeypad.GAP_POSITION
      let q := pressNC m.2 1
      match run_sequenceNC q.2 keys with
      | none => none
      | some r => some (m.1 + q.1 + r.1, r.2)

theorem run_sequence_cons {n : Nat} (s : ChainState n) (key : Char) (keys : List Char) :
    DoorKeypad.run_sequence s (key :: keys) =
      match DoorKeypad.position_of_key key with
      | none => none
      | some p =>
        match DoorKeypad.run_sequence
            (RobotRemote.press (RobotRemote.move_to_position s p
              DoorKeypad.GAP_POSITION).2 1).2 keys with
        | none => none
        | some r => some ((RobotRemote.move_to_position s p DoorKeypad.GAP_POSITION).1 +
            (RobotRemote.press (RobotRemote.move_to_position s p
              DoorKeypad.GAP_POSITION).2 1).1 + r.1, r.2) := rfl

theorem run_sequenceNC_cons {n : Nat} (s : PChain n) (key : Char) (keys : List Char) :
    run_sequenceNC s (key :: keys) =
      match DoorKeypad.position_of_key key with
      | none => none
      | some p =>
        match run_sequenceNC (pressNC (moveNC s p DoorKeypad.GAP_POSITION).2 1).2 keys with
        | none => none
        | some r => some ((moveNC s p DoorKeypad.GAP_POSITION).1 +
            (pressNC (moveNC s p DoorKeypad.GAP_POSITION).2 1).1 + r.1, r.2) := rfl

theorem seq_sim {n : Nat} : ∀ (seq : List Char) (s : ChainState n), belowTop s →
    cachesOK s →
    (DoorKeypad.run_sequence s seq).map (fun r => (r.1, proj r.2)) =
      run_sequenceNC (proj s) seq := by
  intro seq
  induction seq with
  | nil => intro s _ _; rfl
  | cons key keys ihs =>
    intro s hb hc
    rw [run_sequence_cons, run_sequenceNC_cons]
    cases hp : DoorKeypad.position_of_key key with
    | none => rfl
    | some p =>
      obtain ⟨m1, m2, m3⟩ := move_sim s p DoorKeypad.GAP_POSITION
        (below2_of_belowTop hb) hc
      obtain ⟨p1, p2, p3⟩ := press_sim _ 1 (move_below2 _ _ _ (below2_of_belowTop hb)) m3
      rw [m2] at p1 p2
      have hrec := ihs _ (press_belowTop _ _ (move_below2 _ _ _ (below2_of_belowTop hb))) p3
      rw [p2] at hrec
      show Option.map (fun r => (r.1, proj r.2))
          (match DoorKeypad.run_sequence (RobotRemote.press
            (RobotRemote.move_to_position s p DoorKeypad.GAP_POSITION).2 1).2 keys with
           | none => none
           | some r => some ((RobotRemote.move_to_position s p DoorKeypad.GAP_POSITION).1 +
               (RobotRemote.press (RobotRemote.move_to_position s p
                 DoorKeypad.GAP_POSITION).2 1).1 + r.1, r.2)) =
        match run_sequenceNC (pressNC (moveNC (proj s) p
            DoorKeypad.GAP_POSITION).2 1).2 keys with
        | none => none
        | some r => some ((moveNC (proj s) p DoorKeypad.GAP_POSITION).1 +
            (pressNC (moveNC (proj s) p DoorKeypad.GAP_POSITION).2 1).1 + r.1, r.2)
      rw [← hrec]
      cases hr : DoorKeypad.run_sequence
          (RobotRemote.press (RobotRemote.move_to_position s p
            DoorKeypad.GAP_POSITION).2 1).2 keys with
      | none => rfl
      | some r =>
        simp only [Option.map_some', m1, p1]

theorem proj_reset {n : Nat} (s : ChainState n) (home : Position) :
    proj (RobotRemote.reset_positions s home) = canonicalP n home := by
  induction s generalizing home with
  | leaf p c => rfl
  | node p c r ihr =>
    show PChain.node home (proj (RobotRemote.reset_positions r
      (RobotRemote.position_of_key 'A'))) = _
    rw [ihr, canonicalP]

theorem cacheList_reset {n : Nat} (s : ChainState n) (home : Position) :
    cacheList (RobotRemote.reset_positions s home) = cacheList s := by
  induction s generalizing home with
  | leaf p c => rfl
  | node p c r ihr =>
    show c :: cacheList (RobotRemote.reset_positions r (RobotRemote.position_of_key 'A')) = _
    rw [ihr, cacheList]

theorem reset_idem {n : Nat} (s : ChainState n) (home : Position) :
    RobotRemote.reset_positions (RobotRemote.reset_positions s home) home =
      RobotRemote.reset_positions s home := by
  induction s generalizing home with
  | leaf p c => rfl
  | node p c r ihr =>
    show ChainState.node home c (RobotRemote.reset_positions
      (RobotRemote.reset_positions r (RobotRemote.position_of_key 'A'))
      (RobotRemote.position_of_key 'A')) = _
    rw [ihr]
    rfl

theorem count_sim {n : Nat} (s : ChainState n) (seq : List Char) (hb : belowTop s)
    (hc : cachesOK s) :
    (DoorKeypad.count_button_presses_on_top_level s seq).map (fun r => (r.1, proj r.2)) =
      (run_sequenceNC (proj s) seq).map
        (fun r => (r.1, canonicalP n DoorKeypad.key_a)) := by
  unfold DoorKeypad.count_button_presses_on_top_level
  rw [← seq_sim seq s hb hc]
  simp only [Option.map_map]
  rcases hr : DoorKeypad.run_sequence s seq with _ | r
  · rfl
  · simp only [Option.map_some', Function.comp]
    rw [proj_reset]

/-! ### Failure characterization of line processing -/

theorem run_sequence_isSome {n : Nat} : ∀ (seq : List Char) (s : ChainState n),
    (DoorKeypad.run_sequence s seq).isSome ↔
      ∀ ch ∈ seq, (DoorKeypad.position_of_key ch).isSome := by
  intro seq
  induction seq with
  | nil => intro s; simp [DoorKeypad.run_sequence]
  | cons key keys ihs =>
    intro s
    rw [run_sequence_cons]
    cases hp : DoorKeypad.position_of_key key with
    | none =>
      simp only [Option.isSome_none, Bool.false_eq_true, false_iff, not_forall]
      exact ⟨key, List.mem_cons_self key keys, by rw [hp]; simp⟩
    | some p =>
      show (match DoorKeypad.run_sequence (RobotRemote.press
            (RobotRemote.move_to_position s p DoorKeypad.GAP_POSITION).2 1).2 keys with
          | none => none
          | some r => some ((RobotRemote.move_to_position s p DoorKeypad.GAP_POSITION).1 +
              (RobotRemote.press (RobotRemote.move_to_position s p
                DoorKeypad.GAP_POSITION).2 1).1 + r.1, r.2)).isSome ↔
        ∀ ch ∈ key :: keys, (DoorKeypad.position_of_key ch).isSome
      have hi := ihs (RobotRemote.press (RobotRemote.move_to_position s p
        DoorKeypad.GAP_POSITION).2 1).2
      cases hr : DoorKeypad.run_sequence (RobotRemote.press
          (RobotRemote.move_to_position s p DoorKeypad.GAP_POSITION).2 1).2 keys with
      | none =>
        rw [hr] at hi
        simp only [Option.isSome_none, Bool.false_eq_true, false_iff, not_forall] at hi ⊢
        obtain ⟨ch, hch, hbad⟩ := hi
        exact ⟨ch, List.mem_cons_of_mem _ hch, hbad⟩
      | some r =>
        rw [hr] at hi
        simp only [Option.isSome_some, true_iff] at hi ⊢
        intro ch hch
        rcases List.mem_cons.mp hch with rfl | hch'
        · rw [hp]; rfl
        · exact hi ch hch'

theorem count_isSome {n : Nat} (s : ChainState n) (seq : List Char) :
    (DoorKeypad.count_button_presses_on_top_level s seq).isSome ↔
      ∀ ch ∈ seq, (DoorKeypad.position_of_key ch).isSome := by
  have h := run_sequence_isSome (n := n) seq s
  unfold DoorKeypad.count_button_presses_on_top_level
  rcases hr : DoorKeypad.run_sequence s seq with _ | r <;> rw [hr] at h <;> simpa using h

/-! ## The claims -/

/-- Claim C1: with a controller chain of depth 2,
`count_button_presses_on_top_level` returns exactly the end-to-end
press counts 68 for `"029A"`, 60 for `"980A"`, 68 for `"179A"`,
64 for `"456A"` and 64 for `"379A"`; consequently
`part1 "029A" = 68 * 29 = 1972`. -/
theorem claim_c1_end_to_end :
    (DoorKeypad.count_button_presses_on_top_level DoorKeypad.build_part1
      "029A".toList).map Prod.fst = some 68 ∧
    (DoorKeypad.count_button_presses_on_top_level DoorKeypad.build_part1
      "980A".toList).map Prod.fst = some 60 ∧
    (DoorKeypad.count_button_presses_on_top_level DoorKeypad.build_part1
      "179A".toList).map Prod.fst = some 68 ∧
    (DoorKeypad.count_button_presses_on_top_level DoorKeypad.build_part1
      "456A".toList).map Prod.fst = some 64 ∧
    (DoorKeypad.count_button_presses_on_top_level DoorKeypad.build_part1
      "379A".toList).map Prod.fst = some 64 ∧
    part1 "029A" = some (68 * 29) := by
  decide

/-- Claim C2: for every pair of key positions on the same layout, the
move order chosen by `order_of_presses`, executed with all presses of
one directional key before moving to the next key of the order, never
places the cursor on that layout's gap coordinate at any step. -/
theorem claim_c2_no_gap :
    (∀ c ∈ numeric_key_positions, ∀ t ∈ numeric_key_positions,
      ∀ q ∈ path_positions c t DoorKeypad.GAP_POSITION, q ≠ DoorKeypad.GAP_POSITION) ∧
    (∀ c ∈ directional_key_positions, ∀ t ∈ directional_key_positions,
      ∀ q ∈ path_positions c t RobotRemote.GAP_POSITION,
        q ≠ RobotRemote.GAP_POSITION) := by
  constructor <;> decide

/-- Witness for C2, at the numeric-keypad pair from key `'A'` to key
`'7'` whose path passes through `(2,2)`. -/
theorem claim_c2_no_gap_witness :
    (⟨3, 2⟩ : Position) ∈ numeric_key_positions ∧
    (⟨0, 0⟩ : Position) ∈ numeric_key_positions ∧
    (⟨2, 2⟩ : Position) ∈ path_positions ⟨3, 2⟩ ⟨0, 0⟩ DoorKeypad.GAP_POSITION ∧
    (⟨2, 2⟩ : Position) ≠ DoorKeypad.GAP_POSITION :=
  ⟨by decide, by decide, by decide,
    claim_c2_no_gap.1 ⟨3, 2⟩ (by decide) ⟨0, 0⟩ (by decide) ⟨2, 2⟩ (by decide)⟩

/-- Claim C3: for a fixed chain depth and fixed input sequence, two
chains with the same cursor positions whose caches are coherent (empty
caches are coherent, and every computation only writes coherent
entries, so any pre-warmed state reachable from earlier computations
qualifies) produce the same total press count and the same resulting
cursor positions — taking the cache-hit branch of `move_to_position`
yields the same cost and nested-cursor position as cold recomputation. -/
theorem claim_c3_cache_indifference {n : Nat} (s₁ s₂ : ChainState n) (seq : List Char)
    (hp : proj s₁ = proj s₂) (hb : belowTop s₁)
    (hc₁ : cachesOK s₁) (hc₂ : cachesOK s₂) :
    (DoorKeypad.count_button_presses_on_top_level s₁ seq).map
        (fun r => (r.1, proj r.2)) =
      (DoorKeypad.count_button_presses_on_top_level s₂ seq).map
        (fun r => (r.1, proj r.2)) := by
  have hb₂ : belowTop s₂ := by unfold belowTop; rw [← hp]; exact hb
  rw [count_sim s₁ seq hb hc₁, count_sim s₂ seq hb₂ hc₂, hp]

/-- Witness for C3: the fresh depth-2 chain against the same chain
pre-warmed with two coherent cache entries recorded by an unrelated
earlier computation (moving to key `'0'`). -/
theorem claim_c3_cache_indifference_witness :
    (DoorKeypad.count_button_presses_on_top_level DoorKeypad.build_part1
      "029A".toList).map (fun r => (r.1, proj r.2)) =
    (DoorKeypad.count_button_presses_on_top_level
      (ChainState.node ⟨3, 2⟩ []
        (ChainState.node ⟨0, 2⟩
          [((⟨0, -1⟩, ⟨0, 2⟩, ['<', 'v', '^', '>']), (10, ⟨1, 0⟩))]
          (ChainState.leaf ⟨0, 2⟩
            [((⟨1, -2⟩, ⟨0, 2⟩, ['v', '^', '<', '>']), (6, ⟨1, 0⟩))])))
      "029A".toList).map (fun r => (r.1, proj r.2)) :=
  claim_c3_cache_indifference _ _ _ (by decide)
    (belowTop_build_chain 2 DoorKeypad.key_a)
    (cachesOK_build_chain 2 DoorKeypad.key_a)
    (by simp only [cachesOK, entry_coherent]; decide)

/-- Claim C4 counterexample: at current key `'2'` (2,1) and target key
`'6'` (1,2) on the numeric keypad (gap (3,0)) neither axis-alignment
condition holds, yet the emitted default order is `['^', '>']`, a
vertical move strictly before a horizontal one — the default ordering
is not horizontal-first. -/
theorem claim_c4_cex :
    (⟨2, 1⟩ : Position) ∈ numeric_key_positions ∧
    (⟨1, 2⟩ : Position) ∈ numeric_key_positions ∧
    ((⟨2, 1⟩ : Position).row = (⟨3, 0⟩ : Position).row ∧
      (⟨1, 2⟩ : Position).col = (⟨3, 0⟩ : Position).col) = False ∧
    ((⟨2, 1⟩ : Position).col = (⟨3, 0⟩ : Position).col ∧
      (⟨1, 2⟩ : Position).row = (⟨3, 0⟩ : Position).row) = False ∧
    emitted_moves ⟨2, 1⟩ ⟨1, 2⟩ ⟨3, 0⟩ = ['^', '>'] ∧
    horizontal_first (emitted_moves ⟨2, 1⟩ ⟨1, 2⟩ ⟨3, 0⟩) = false := by
  refine ⟨by decide, by decide, ?_, ?_, by decide, by decide⟩ <;>
    simp

/-- Claim C4 amended: when neither axis-alignment condition holds, the
chosen order is the static default `['<', 'v', '^', '>']`, which emits
all leftward moves first, then all vertical moves, then all rightward
moves — horizontal moves come entirely before vertical ones only when
the required horizontal movement is leftward (or one of the two is
absent), not in general. -/
theorem claim_c4_left_first (c t g : Position)
    (h1 : ¬(c.row = g.row ∧ t.col = g.col))
    (h2 : ¬(c.col = g.col ∧ t.row = g.row)) :
    order_of_presses c t g = ['<', 'v', '^', '>'] ∧
    emitted_moves c t g =
      List.replicate (presses_in_direction (t - c) '<') '<' ++
      (List.replicate (presses_in_direction (t - c) 'v') 'v' ++
        (List.replicate (presses_in_direction (t - c) '^') '^' ++
          List.replicate (presses_in_direction (t - c) '>') '>')) := by
  have ho : order_of_presses c t g = ['<', 'v', '^', '>'] := by
    unfold order_of_presses
    rw [if_neg h1, if_neg h2]
  refine ⟨ho, ?_⟩
  unfold emitted_moves
  rw [ho]
  simp

/-- Witness for the amended C4 at the pair from key `'2'` to key `'6'`. -/
theorem claim_c4_left_first_witness :
    order_of_presses ⟨2, 1⟩ ⟨1, 2⟩ ⟨3, 0⟩ = ['<', 'v', '^', '>'] ∧
    emitted_moves ⟨2, 1⟩ ⟨1, 2⟩ ⟨3, 0⟩ =
      List.replicate (presses_in_direction ((⟨1, 2⟩ : Position) - ⟨2, 1⟩) '<') '<' ++
      (List.replicate (presses_in_direction ((⟨1, 2⟩ : Position) - ⟨2, 1⟩) 'v') 'v' ++
        (List.replicate (presses_in_direction ((⟨1, 2⟩ : Position) - ⟨2, 1⟩) '^') '^' ++
          List.replicate (presses_in_direction ((⟨1, 2⟩ : Position) - ⟨2, 1⟩) '>') '>')) :=
  claim_c4_left_first ⟨2, 1⟩ ⟨1, 2⟩ ⟨3, 0⟩ (by decide) (by decide)

/-- Claim C5: on a level with no nested level, `move_to_position`
returns the Manhattan distance of the delta and sets the cursor to the
target (for every coordinate pair, in particular the pairs on the
layout that avoid the gap), leaving the cache untouched. -/
theorem claim_c5_depth_zero (pos : Position) (cache : Cache) (t g : Position) :
    RobotRemote.move_to_position (.leaf pos cache) t g =
      ((t - pos).row.natAbs + (t - pos).col.natAbs, .leaf t cache) := by
  rw [move_to_leaf_def]
  by_cases h0 : t - pos = (⟨0, 0⟩ : Position)
  · rw [if_pos h0]
    have ht : t = pos := Position.sub_eq_zero_iff.mp h0
    subst ht
    rw [h0]
    rfl
  · rw [if_neg h0]

/-- Claim C6: on a level with a nested level, `press count` returns the
cost of moving the nested cursor to the directional `'A'` key plus the
cost of the nested level pressing `'A'` `count` times, leaving this
level's own cursor (and cache) unchanged; on a level with no nested
level it returns `count` with no state change. -/
theorem claim_c6_press_delegates :
    (∀ {n : Nat} (pos : Position) (cache : Cache) (rest : ChainState n) (k : Nat),
      RobotRemote.press (.node pos cache rest) k =
        ((RobotRemote.move_to_position rest (RobotRemote.position_of_key 'A')
            RobotRemote.GAP_POSITION).1 +
          (RobotRemote.press (RobotRemote.move_to_position rest
            (RobotRemote.position_of_key 'A') RobotRemote.GAP_POSITION).2 k).1,
         ChainState.node pos cache
           (RobotRemote.press (RobotRemote.move_to_position rest
             (RobotRemote.position_of_key 'A') RobotRemote.GAP_POSITION).2 k).2)) ∧
    (∀ (pos : Position) (cache : Cache) (k : Nat),
      RobotRemote.press (.leaf pos cache) k = (k, .leaf pos cache)) :=
  ⟨fun pos cache rest k => press_node_def pos cache rest k,
    fun _ _ _ => rfl⟩

/-- Claim C7: `reset_positions home` puts this level's cursor on `home`
and every nested cursor on the directional `'A'` key, leaves every
cache unchanged, and is idempotent. -/
theorem claim_c7_reset {n : Nat} (s : ChainState n) (home : Position) :
    proj (RobotRemote.reset_positions s home) = canonicalP n home ∧
    cacheList (RobotRemote.reset_positions s home) = cacheList s ∧
    RobotRemote.reset_positions (RobotRemote.reset_positions s home) home =
      RobotRemote.reset_positions s home :=
  ⟨proj_reset s home, cacheList_reset s home, reset_idem s home⟩

/-- Claim C8: calling `move_to_position` with the target equal to the
current cursor returns 0 and leaves the entire chain (cursors and
caches) unchanged. -/
theorem claim_c8_zero_delta {n : Nat} (s : ChainState n) (t g : Position)
    (h : t = topPos s) :
    RobotRemote.move_to_position s t g = (0, s) := by
  cases s with
  | leaf pos cache =>
    rw [topPos_leaf] at h
    rw [move_to_leaf_def, if_pos (Position.sub_eq_zero_iff.mpr h)]
  | node pos cache rest =>
    rw [topPos_node] at h
    rw [move_to_node_def, if_pos (Position.sub_eq_zero_iff.mpr h)]

/-- Witness for C8 at the freshly built depth-2 chain. -/
theorem claim_c8_zero_delta_witness :
    RobotRemote.move_to_position DoorKeypad.build_part1 ⟨3, 2⟩
      DoorKeypad.GAP_POSITION = (0, DoorKeypad.build_part1) :=
  claim_c8_zero_delta DoorKeypad.build_part1 ⟨3, 2⟩ DoorKeypad.GAP_POSITION rfl

/-- Claim C9 counterexample: the line `"0A"` consists solely of
numeric-keypad characters, yet `part1` fails on it — `sequence_number`
strips the trailing `'A'` and the leading `'0'` and is left with an
empty string, which does not parse. -/
theorem claim_c9_cex :
    ("0A".toList.all fun ch => (DoorKeypad.position_of_key ch).isSome) = true ∧
    part1 "0A" = none := by
  decide

/-- Claim C9 amended: processing a line fails exactly when the line
contains a character that is not on the numeric keypad, or when the
embedded-number parse fails (after stripping trailing `'A'` characters
and leading `'0'` characters the remainder is empty, contains a
non-digit, or exceeds the `u64` range). -/
theorem claim_c9_characterization {n : Nat} (s : ChainState n) (line : List Char) :
    (process_line s line).isSome ↔
      ((∀ ch ∈ line, (DoorKeypad.position_of_key ch).isSome) ∧
        (sequence_number line).isSome) := by
  unfold process_line
  have hcount := count_isSome s line
  rcases hc : DoorKeypad.count_button_presses_on_top_level s line with _ | c <;>
    rw [hc] at hcount
  · simp only [Option.isSome_none, Bool.false_eq_true, false_iff] at hcount ⊢
    exact fun h => hcount h.1
  · simp only [Option.isSome_some, true_iff] at hcount
    rcases hs : sequence_number line with _ | v
    · simp
    · simp
      exact hcount

/-- Claim C10: if every cursor strictly below the outermost one rests
on the directional `'A'` key, then after any completed `press` the same
holds again (with the own cursor unmoved) — so at the moment of every
cache lookup the cursors below the consulted level are home — and,
given coherent caches, the cost and resulting cursor of the button loop
are fully determined by the data in the cache key: the delta, the
consulted level's cursor position, and the move order. -/
theorem claim_c10_home_invariant {n : Nat} (s : ChainState n) (k : Nat)
    (hb : belowTop s) :
    (belowTop (RobotRemote.press s k).2 ∧
      topPos (RobotRemote.press s k).2 = topPos s) ∧
    (cachesOK s → ∀ (s' : ChainState n) (order : List Char) (delta : Position),
      belowTop s' → cachesOK s' → topPos s' = topPos s →
      (run_buttonsC order delta s).1 = (run_buttonsC order delta s').1 ∧
      topPos (run_buttonsC order delta s).2 =
        topPos (run_buttonsC order delta s').2) := by
  refine ⟨⟨press_belowTop _ _ (below2_of_belowTop hb), press_top _ _⟩, ?_⟩
  intro hc s' order delta hb' hc' ht
  obtain ⟨a1, a2, _⟩ := run_sim_all order delta s hb hc
  obtain ⟨b1, b2, _⟩ := run_sim_all order delta s' hb' hc'
  have hps : proj s' = proj s := by
    rw [proj_eq_canonical hb', proj_eq_canonical hb, ht]
  constructor
  · rw [a1, b1, hps]
  · rw [← topP_proj (run_buttonsC order delta s).2,
      ← topP_proj (run_buttonsC order delta s').2, a2, b2, hps]

/-- Witness for C10 at a depth-1 chain and the default move order. -/
theorem claim_c10_home_invariant_witness :
    ((belowTop (RobotRemote.press (build_chain 1 ⟨0, 2⟩) 1).2 ∧
      topPos (RobotRemote.press (build_chain 1 ⟨0, 2⟩) 1).2 =
        topPos (build_chain 1 ⟨0, 2⟩)) ∧
    ((run_buttonsC ['<', 'v', '^', '>'] ⟨1, -2⟩ (build_chain 1 ⟨0, 2⟩)).1 =
        (run_buttonsC ['<', 'v', '^', '>'] ⟨1, -2⟩ (build_chain 1 ⟨0, 2⟩)).1 ∧
      topPos (run_buttonsC ['<', 'v', '^', '>'] ⟨1, -2⟩ (build_chain 1 ⟨0, 2⟩)).2 =
        topPos (run_buttonsC ['<', 'v', '^', '>'] ⟨1, -2⟩ (build_chain 1 ⟨0, 2⟩)).2)) :=
  ⟨(claim_c10_home_invariant (build_chain 1 ⟨0, 2⟩) 1 (belowTop_build_chain 1 _)).1,
    (claim_c10_home_invariant (build_chain 1 ⟨0, 2⟩) 1 (belowTop_build_chain 1 _)).2
      (cachesOK_build_chain 1 _) (build_chain 1 ⟨0, 2⟩) ['<', 'v', '^', '>'] ⟨1, -2⟩
      (belowTop_build_chain 1 _) (cachesOK_build_chain 1 _) rfl⟩

end Day21
